import Mathlib

/-!
# Verification of the meal-planning service (`ml_service.py`)

Shallow embedding of the `MealPlanningML` class. Python dictionaries for
meals are modelled as a structure with `Option` fields (a missing key is
`none`; every access goes through `Option.getD` with the default the code
passes to `dict.get`). Numeric values are modelled as `ℚ`. Python
association dictionaries (`nutrition`, the preference counters) are
modelled as association lists queried with `dictGet`. The process-wide
random source is made explicit: the plan generator takes a function
`rand : ℕ → ℚ` giving, for each day, the value `random.uniform(0, total_weight)`
returned on that day.
-/

/-- A meal record (a Python dict). A `none` field is a missing key. -/
structure Meal where
  name : Option String
  cuisine : Option String
  ingredients : Option (List String)
  tags : Option (List String)
  prepTime : Option ℚ
  difficulty : Option String
  nutrition : Option (List (String × ℚ))
  rating : Option ℚ
deriving DecidableEq

/-- `d.get(k, fallback)` on an association list. -/
def dictGet (d : List (String × ℚ)) (k : String) (fallback : ℚ) : ℚ :=
  match d.lookup k with
  | some v => v
  | none => fallback

/-- `counter[k] += v` on an association list (a `collections.Counter`). -/
def counterAdd : List (String × ℚ) → String → ℚ → List (String × ℚ)
  | [], k, v => [(k, v)]
  | (k', v') :: rest, k, v =>
    if k' = k then (k', v' + v) :: rest else (k', v') :: counterAdd rest k v

/-- Does `needle` occur at the head of `hay`? (helper for Python `in` on strings) -/
def matchesAt : List Char → List Char → Bool
  | _, [] => true
  | [], _ :: _ => false
  | h :: hs, n :: ns => h = n && matchesAt hs ns

/-- Does `needle` occur as a contiguous substring of `hay`? -/
def hasSub : List Char → List Char → Bool
  | [], needle => needle.isEmpty
  | h :: t, needle => matchesAt (h :: t) needle || hasSub t needle

/-- Python `needle in hay` for strings: substring membership. -/
def strContains (hay needle : String) : Bool :=
  hasSub hay.data needle.data

/-- Python `s.lower()`: characterwise lowercasing (the code's alphabet is
ASCII, where this agrees with `str.lower`). Defined over `String.data` so it
evaluates by `decide`. -/
def pyLower (s : String) : String :=
  String.mk (s.data.map Char.toLower)

/-- `meal.get('nutrition', {}).get(k, fallback)`. -/
def nutrGet (meal : Meal) (k : String) (fallback : ℚ) : ℚ :=
  dictGet (meal.nutrition.getD []) k fallback

/-- The six keys of the `restriction_checks` dict (lines 256-280). -/
def supported_restrictions : List String :=
  ["vegetarian", "vegan", "gluten-free", "dairy-free", "low-carb", "keto"]

/-- One named predicate from the `restriction_checks` dict, applied to the
already-lowercased restriction name; an unknown name is skipped by the loop,
i.e. satisfied. `meal_tags` and `meal_ingredients` are the lowercased lists
built at lines 253-254; the ingredient tests search the space-joined string. -/
def restriction_ok (meal : Meal) (r : String) : Bool :=
  let meal_tags := (meal.tags.getD []).map pyLower
  let joined := String.intercalate " " ((meal.ingredients.getD []).map pyLower)
  if r = "vegetarian" then
    meal_tags.contains "vegetarian" ||
      !(["chicken", "beef", "pork", "fish", "turkey", "lamb"].any (fun meat => strContains joined meat))
  else if r = "vegan" then
    meal_tags.contains "vegan" ||
      (meal_tags.contains "vegetarian" &&
        !(["milk", "cheese", "butter", "cream", "yogurt", "egg"].any (fun dairy => strContains joined dairy)))
  else if r = "gluten-free" then
    meal_tags.contains "gluten-free" ||
      !(["wheat", "flour", "bread", "pasta", "barley", "rye"].any (fun gluten => strContains joined gluten))
  else if r = "dairy-free" then
    meal_tags.contains "dairy-free" ||
      !(["milk", "cheese", "butter", "cream", "yogurt"].any (fun dairy => strContains joined dairy))
  else if r = "low-carb" then
    decide (nutrGet meal "carbs" 50 < 30)
  else if r = "keto" then
    decide (nutrGet meal "carbs" 50 < 20) && decide (nutrGet meal "healthy_fats" 0 > 15)
  else
    true

/-- `_meets_dietary_restrictions` (lines 251-288): every requested restriction,
lowercased, must pass its check; the loop returns `False` on the first failure
and `True` otherwise. -/
def meets_dietary_restrictions (meal : Meal) (restrictions : List String) : Bool :=
  restrictions.all (fun r => restriction_ok meal (pyLower r))

/-- The preference dict returned by `analyze_user_preferences` /
`_default_preferences`; the code always populates these five keys. -/
structure UserPrefs where
  preferred_cuisines : List (String × ℚ)
  preferred_ingredients : List (String × ℚ)
  avg_prep_time : ℚ
  preferred_difficulty : ℚ
  variety_score : ℚ
deriving DecidableEq

/-- `_default_preferences` (lines 74-82). -/
def default_preferences : UserPrefs :=
  { preferred_cuisines := [("italian", 3), ("mexican", 3), ("american", 3)]
    preferred_ingredients := []
    avg_prep_time := 30
    preferred_difficulty := 2
    variety_score := 4/5 }

/-- `{'easy': 1, 'medium': 2, 'hard': 3}.get(d, 2)` (lines 59-60, 114-115). -/
def difficulty_mapping (d : String) : ℚ :=
  if d = "easy" then 1
  else if d = "medium" then 2
  else if d = "hard" then 3
  else 2

/-- `analyze_user_preferences` (lines 30-72). Empty history returns the fixed
default profile. Otherwise each entry adds its rating (default 3) to the
cuisine counter (cuisine default `'unknown'`) and to each lowercased
ingredient's counter; `avg_prep_time` and `preferred_difficulty` are the
arithmetic means (`np.mean`) of the per-entry values (prepTime default 30,
difficulty default `'medium'`); `variety_score` is distinct names / entries. -/
def analyze_user_preferences (meal_history : List Meal) : UserPrefs :=
  if meal_history.isEmpty then default_preferences
  else
    { preferred_cuisines :=
        meal_history.foldl
          (fun acc meal => counterAdd acc (meal.cuisine.getD "unknown") (meal.rating.getD 3)) []
      preferred_ingredients :=
        meal_history.foldl
          (fun acc meal =>
            (meal.ingredients.getD []).foldl
              (fun acc2 ing => counterAdd acc2 (pyLower ing) (meal.rating.getD 3)) acc) []
      avg_prep_time :=
        (meal_history.map (fun meal => meal.prepTime.getD 30)).sum / meal_history.length
      preferred_difficulty :=
        (meal_history.map (fun meal => difficulty_mapping (meal.difficulty.getD "medium"))).sum /
          meal_history.length
      variety_score :=
        ((meal_history.map (fun meal => meal.name.getD "")).dedup.length : ℚ) /
          meal_history.length }

/-- The variety penalty factor `0.5 * (1 - recent_meals.index(meal_name) / len(recent_meals))`
(line 124); only evaluated when `meal_name` is in `recent_meals`
(`list.index` returns the first occurrence). -/
def variety_penalty (meal_name : String) (recent_meals : List String) : ℚ :=
  (1/2) * (1 - (List.indexOf meal_name recent_meals : ℚ) / recent_meals.length)

/-- The prep-time term `max(0, 1 - abs(prep_time - preferred_time) / preferred_time)`
(lines 109-110). With `preferred_time = 0` the Python division is by zero; on
the profiles the service itself builds, `preferred_time` is a numpy float
(`np.mean`), so division by zero yields `inf` (or `nan` for `0/0`) and
`max(0, 1 - ...)` evaluates to `0`; this degenerate branch is modelled as `0`.
A plain-Python zero there would instead raise `ZeroDivisionError`. -/
def prep_time_term (meal : Meal) (user_prefs : UserPrefs) : ℚ :=
  let prep_time := meal.prepTime.getD 30
  let preferred_time := user_prefs.avg_prep_time
  if preferred_time = 0 then 0
  else max 0 (1 - |prep_time - preferred_time| / preferred_time)

/-- `calculate_meal_score` (lines 84-129). Weighted sum of the cuisine term
(weight 0.3), ingredient term (0.25), prep-time term (0.15), difficulty term
(0.15) and the variety bonus/penalty (0.15), clamped with
`min(1.0, max(0.0, score))`. -/
def calculate_meal_score (meal : Meal) (user_prefs : UserPrefs) (recent_meals : List String) : ℚ :=
  let cuisine := meal.cuisine.getD "unknown"
  let cuisine_score := dictGet user_prefs.preferred_cuisines cuisine (5/2) / 5
  let ingredients := meal.ingredients.getD []
  let ingredient_score : ℚ :=
    if ingredients.isEmpty then 0
    else ((ingredients.map (fun ing => dictGet user_prefs.preferred_ingredients (pyLower ing) (5/2))).sum /
            ingredients.length) / 5
  let time_score := prep_time_term meal user_prefs
  let meal_difficulty := difficulty_mapping (meal.difficulty.getD "medium")
  let difficulty_score := max 0 (1 - |meal_difficulty - user_prefs.preferred_difficulty| / 2)
  let meal_name := meal.name.getD ""
  let base := cuisine_score * (3/10) + ingredient_score * (1/4) +
    time_score * (3/20) + difficulty_score * (3/20)
  let score :=
    if recent_meals.contains meal_name then
      base - variety_penalty meal_name recent_meals * (3/20)
    else
      base + 3/20
  min 1 (max 0 score)

/-- The weekly nutritional targets dict of `balance_nutrition_weekly` (lines 146-153). -/
def weekly_targets : List (String × ℚ) :=
  [("protein", 350), ("carbs", 1400), ("fiber", 175),
   ("healthy_fats", 280), ("vitamins", 100), ("minerals", 100)]

/-- The summed nutrition defaultdict (lines 139-143 and 292-297), queried per
nutrient: the total of `nutrient` over the meals, a missing key counting 0. -/
def nutrition_totals (meals : List Meal) (nutrient : String) : ℚ :=
  (meals.map (fun meal => nutrGet meal nutrient 0)).sum

/-- The `nutrition_gaps` dict (lines 156-159): per target nutrient,
`max(0, target - current)`. -/
def nutrition_gaps (meals : List Meal) : List (String × ℚ) :=
  weekly_targets.map (fun p => (p.1, max 0 (p.2 - nutrition_totals meals p.1)))

/-- `nutrition_priority_score` (lines 162-169): for every nutrient with a
positive gap, add `meal.nutrition[nutrient] * (gap / target)`. -/
def nutrition_priority_score (gaps : List (String × ℚ)) (meal : Meal) : ℚ :=
  (gaps.map (fun p =>
    if p.2 > 0 then nutrGet meal p.1 0 * (p.2 / dictGet weekly_targets p.1 1) else 0)).sum

/-- `balance_nutrition_weekly` (lines 131-175): identity for fewer than 7
meals; otherwise a stable descending sort by `nutrition_priority_score`
(Python `sort(key=..., reverse=True)`). -/
def balance_nutrition_weekly (meals : List Meal) : List Meal :=
  if meals.length < 7 then meals
  else
    let gaps := nutrition_gaps meals
    meals.mergeSort (fun a b =>
      decide (nutrition_priority_score gaps b ≤ nutrition_priority_score gaps a))

/-- The loop of `_weighted_random_choice` (lines 243-247) over `(item, weight)`
pairs: accumulate the weights and return the first item whose cumulative
weight reaches `random_value`. -/
def wrc_walk {α : Type} : List (α × ℚ) → ℚ → ℚ → Option α
  | [], _, _ => none
  | (a, w) :: rest, random_value, cumulative_weight =>
    if random_value ≤ cumulative_weight + w then some a
    else wrc_walk rest random_value (cumulative_weight + w)

/-- `_weighted_random_choice` (lines 238-249) with the uniform draw made an
explicit argument `random_value`. The Python loop indexes `items[i]` for
`i < len(weights)`; it is only called with `len(weights) = len(items)`, which
the `zip` realises. If the loop finishes without returning, the fallback is
`items[-1] if items else None`. -/
def weighted_random_choice {α : Type} (items : List α) (weights : List ℚ)
    (random_value : ℚ) : Option α :=
  match wrc_walk (items.zip weights) random_value 0 with
  | some a => some a
  | none => items.getLast?

/-- The per-candidate selection weights `score + 0.1` (line 228). -/
def selection_weights (candidates : List (Meal × ℚ)) : List ℚ :=
  candidates.map (fun c => c.2 + 1/10)

/-- One iteration of the day loop of `generate_smart_meal_plan`
(lines 214-231), acting on the state `(selected_meals, used_meals)`:
filter out used names; when no candidate is left, fall back to the full
scored list and clear `used_meals`; weight each candidate `score + 0.1`;
pick by weighted random choice with the day's draw; append the pick and
record its name. -/
def plan_day_step (meal_scores : List (Meal × ℚ)) (rand : ℕ → ℚ)
    (st : List Meal × List String) (day : ℕ) : List Meal × List String :=
  let avail := meal_scores.filter (fun ms => !st.2.contains (ms.1.name.getD ""))
  let pool := if avail.isEmpty then meal_scores else avail
  let used := if avail.isEmpty then [] else st.2
  if pool.isEmpty then (st.1, used)
  else
    match weighted_random_choice pool (selection_weights pool) (rand day) with
    | some sel => (st.1 ++ [sel.1], (sel.1.name.getD "") :: used)
    | none => (st.1, used)

/-- `generate_smart_meal_plan` (lines 177-236). `rand day` is the value
`random.uniform(0, total_weight)` drawn on that day. Learns preferences,
filters by restrictions (empty result short-circuits to `[]`), takes the
last 14 history names as the recency window, scores and stably sorts the
filtered meals by descending score, runs the day loop, and finally applies
`balance_nutrition_weekly`. -/
def generate_smart_meal_plan (available_meals meal_history : List Meal) (days : ℕ)
    (dietary_restrictions : List String) (rand : ℕ → ℚ) : List Meal :=
  let user_prefs := analyze_user_preferences meal_history
  let filtered_meals :=
    available_meals.filter (fun meal => meets_dietary_restrictions meal dietary_restrictions)
  if filtered_meals.isEmpty then []
  else
    let recent_meals :=
      (meal_history.drop (meal_history.length - 14)).map (fun meal => meal.name.getD "")
    let meal_scores :=
      (filtered_meals.map (fun meal =>
        (meal, calculate_meal_score meal user_prefs recent_meals))).mergeSort
        (fun a b => decide (b.2 ≤ a.2))
    let selected := ((List.range days).foldl (plan_day_step meal_scores rand) ([], [])).1
    balance_nutrition_weekly selected

/-- The weekly recommended values dict of `analyze_nutrition_gaps`
(lines 300-307); textually identical to `weekly_targets`. -/
def weekly_recommendations : List (String × ℚ) :=
  [("protein", 350), ("carbs", 1400), ("fiber", 175),
   ("healthy_fats", 280), ("vitamins", 100), ("minerals", 100)]

/-- The per-nutrient balance contribution (lines 325-328):
`ratio = current / recommended` (0 when `recommended` is 0) and
`1 - abs(1 - ratio)` when `ratio <= 2`, else 0. -/
def balance_contribution (meal_plan : List Meal) (p : String × ℚ) : ℚ :=
  let frac := if p.2 > 0 then nutrition_totals meal_plan p.1 / p.2 else 0
  if frac ≤ 2 then 1 - |1 - frac| else 0

/-- The analysis record built by `analyze_nutrition_gaps` (lines 309-315). -/
structure NutritionAnalysis where
  current_totals : String → ℚ
  gaps : List (String × ℚ)
  excesses : List (String × ℚ)
  balance_score : ℚ

/-- `analyze_nutrition_gaps` (lines 290-332): per recommended nutrient, a gap
entry `recommended - current` when `current < recommended * 0.8`, an excess
entry `current - recommended` when `current > recommended * 1.2`; the balance
score is the mean of the six per-nutrient contributions. -/
def analyze_nutrition_gaps (meal_plan : List Meal) : NutritionAnalysis :=
  let current := nutrition_totals meal_plan
  { current_totals := current
    gaps :=
      (weekly_recommendations.filter (fun p => decide (current p.1 < p.2 * (4/5)))).map
        (fun p => (p.1, p.2 - current p.1))
    excesses :=
      (weekly_recommendations.filter (fun p => decide (current p.1 > p.2 * (6/5)))).map
        (fun p => (p.1, current p.1 - p.2))
    balance_score :=
      (weekly_recommendations.map (balance_contribution meal_plan)).sum /
        (weekly_recommendations.map (balance_contribution meal_plan)).length }

/-! ## Concrete records used in witnesses and counterexamples -/

/-- A meal dict with every key missing. -/
def simpleMeal : Meal :=
  { name := none, cuisine := none, ingredients := none, tags := none,
    prepTime := none, difficulty := none, nutrition := none, rating := none }

/-- A meal tagged `vegan` whose ingredients contain chicken. -/
def chickenVegan : Meal :=
  { simpleMeal with
    name := some "Vegan Chicken Bowl"
    tags := some ["vegan"]
    ingredients := some ["chicken", "rice"] }

/-- A history entry whose prep time is 0. -/
def zeroPrepMeal : Meal :=
  { simpleMeal with name := some "Instant", prepTime := some 0 }

/-! ## C10 -/

/-- C10: passing the `vegan` restriction does not imply passing `vegetarian`:
the meal tagged `vegan` with `chicken` among its ingredients satisfies
`['vegan']` (the tag alone suffices) but fails `['vegetarian']` (no
`vegetarian` tag and a meat-ingredient match). -/
theorem vegan_does_not_imply_vegetarian :
    meets_dietary_restrictions chickenVegan ["vegan"] = true ∧
    meets_dietary_restrictions chickenVegan ["vegetarian"] = false := by
  decide

/-! ## C5 -/

/-- C5: the dietary filter is conjunctive — a two-restriction check is the
conjunction of the two one-restriction checks — and any restriction name
outside the six supported ones is automatically satisfied. -/
theorem dietary_filter_conjunctive_and_unknown_ignored :
    (∀ (m : Meal) (r1 r2 : String),
      meets_dietary_restrictions m [r1, r2] =
        (meets_dietary_restrictions m [r1] && meets_dietary_restrictions m [r2])) ∧
    (∀ (m : Meal) (r : String), pyLower r ∉ supported_restrictions →
      meets_dietary_restrictions m [r] = true) := by
  constructor
  · intro m r1 r2
    simp [meets_dietary_restrictions]
  · intro m r hr
    simp only [supported_restrictions, List.mem_cons, List.not_mem_nil, or_false,
      not_or] at hr
    obtain ⟨h1, h2, h3, h4, h5, h6⟩ := hr
    simp [meets_dietary_restrictions, restriction_ok, h1, h2, h3, h4, h5, h6]

/-- Witness for C5 at concrete inputs: conjunctivity at `["vegan", "keto"]`
on the chicken-vegan meal, and the unsupported name `"paleo"` is satisfied
by the all-missing meal. -/
theorem dietary_filter_conjunctive_and_unknown_ignored_witness :
    meets_dietary_restrictions chickenVegan ["vegan", "keto"] =
      (meets_dietary_restrictions chickenVegan ["vegan"] &&
        meets_dietary_restrictions chickenVegan ["keto"]) ∧
    meets_dietary_restrictions simpleMeal ["paleo"] = true :=
  ⟨dietary_filter_conjunctive_and_unknown_ignored.1 chickenVegan "vegan" "keto",
   dietary_filter_conjunctive_and_unknown_ignored.2 simpleMeal "paleo" (by decide)⟩

/-! ## C2 -/

/-- C2: for every meal, preference profile and recency list (with a nonzero
`avg_prep_time`, so the prep-time division is well defined), the meal score
lies in `[0, 1]` — the final `min(1.0, max(0.0, score))` clamp guarantees it
regardless of the magnitudes of ratings, prep times or ingredient counts. -/
theorem calculate_meal_score_mem_unit_interval
    (meal : Meal) (user_prefs : UserPrefs) (recent_meals : List String)
    (havg : user_prefs.avg_prep_time ≠ 0) :
    0 ≤ calculate_meal_score meal user_prefs recent_meals ∧
      calculate_meal_score meal user_prefs recent_meals ≤ 1 := by
  unfold calculate_meal_score
  exact ⟨le_min (by norm_num) (le_max_left 0 _), min_le_left 1 _⟩

/-- Witness for C2: the all-missing meal against the default profile
(whose `avg_prep_time` is 30). -/
theorem calculate_meal_score_mem_unit_interval_witness :
    0 ≤ calculate_meal_score simpleMeal default_preferences [] ∧
      calculate_meal_score simpleMeal default_preferences [] ≤ 1 :=
  calculate_meal_score_mem_unit_interval simpleMeal default_preferences []
    (by norm_num [default_preferences])

/-! ## C3 -/

/-- C3, counterexample: the subtracted variety penalty is NOT monotonically
increasing in the meal's index in `recent_names`. In the window
`["a", "b"]`, the meal at index 1 (the most recently eaten) is deducted
`0.15 * 0.5 * (1 - 1/2) = 0.0375`, strictly LESS than the full
`0.15 * 0.5 * (1 - 0/2) = 0.075` deducted at index 0. -/
theorem variety_penalty_not_increasing_cex :
    variety_penalty "b" ["a", "b"] * (3/20) < variety_penalty "a" ["a", "b"] * (3/20) := by
  have ha : List.indexOf "a" ["a", "b"] = 0 := by decide
  have hb : List.indexOf "b" ["a", "b"] = 1 := by decide
  rw [variety_penalty, variety_penalty, ha, hb]
  norm_num

/-- C3 (amended): the subtracted variety penalty `0.15 * 0.5 * (1 - index/len)`
is monotonically DECREASING in the meal's index within `recent_names`: a meal
appearing earlier in the recency window (lower index) is deducted strictly
more, the full 7.5% at index 0, and the most recently eaten meal (highest
index) is deducted least. -/
theorem variety_penalty_decreasing_in_index
    (recent_meals : List String) (n1 n2 : String)
    (h1 : n1 ∈ recent_meals) (h2 : n2 ∈ recent_meals)
    (hlt : List.indexOf n1 recent_meals < List.indexOf n2 recent_meals) :
    variety_penalty n2 recent_meals * (3/20) < variety_penalty n1 recent_meals * (3/20) := by
  have hlen : (0 : ℚ) < recent_meals.length := by
    have := List.length_pos.mpr (List.ne_nil_of_mem h1)
    exact_mod_cast this
  have key : (List.indexOf n1 recent_meals : ℚ) / recent_meals.length <
      (List.indexOf n2 recent_meals : ℚ) / recent_meals.length := by
    apply div_lt_div_of_pos_right ?_ hlen
    exact_mod_cast hlt
  unfold variety_penalty
  linarith

/-- Witness for C3 (amended): in the window `["a", "b"]`, the meal named
`"b"` (index 1) is deducted strictly less than the meal named `"a"`
(index 0). -/
theorem variety_penalty_decreasing_in_index_witness :
    variety_penalty "b" ["a", "b"] * (3/20) < variety_penalty "a" ["a", "b"] * (3/20) :=
  variety_penalty_decreasing_in_index ["a", "b"] "a" "b"
    (by decide) (by decide) (by decide)

/-! ## C4 -/

/-- C4: `balance_nutrition_weekly` is the identity on inputs of fewer than 7
meals, and returns a permutation of its input (same multiset) on inputs of
7 or more meals. -/
theorem balance_nutrition_weekly_identity_or_perm (meals : List Meal) :
    (meals.length < 7 → balance_nutrition_weekly meals = meals) ∧
    (7 ≤ meals.length → (balance_nutrition_weekly meals).Perm meals) := by
  constructor
  · intro h
    simp [balance_nutrition_weekly, if_pos h]
  · intro h
    rw [balance_nutrition_weekly, if_neg (by omega)]
    exact List.mergeSort_perm _ _

/-- Witness for C4: identity on a 1-meal list, permutation on a 7-meal list. -/
theorem balance_nutrition_weekly_identity_or_perm_witness :
    balance_nutrition_weekly [simpleMeal] = [simpleMeal] ∧
      (balance_nutrition_weekly (List.replicate 7 simpleMeal)).Perm
        (List.replicate 7 simpleMeal) :=
  ⟨(balance_nutrition_weekly_identity_or_perm [simpleMeal]).1 (by decide),
   (balance_nutrition_weekly_identity_or_perm (List.replicate 7 simpleMeal)).2 (by decide)⟩

/-! ## C8 -/

/-- C8, counterexample: the divisor of the prep-time scoring term is
`user_prefs.avg_prep_time`, and for the well-formed one-entry history whose
meal has `prepTime = 0` (a non-negative prep time) the learned profile has
`avg_prep_time = 0` — so the score computation does divide by zero on a
reachable input. -/
theorem prep_time_divisor_zero_cex :
    (analyze_user_preferences [zeroPrepMeal]).avg_prep_time = 0 := by
  norm_num [analyze_user_preferences, zeroPrepMeal, simpleMeal]

/-- C8 (amended): the three core operations are total and every missing field
falls back to its documented default (scoring and the dietary filter give the
all-missing meal exactly the result of the meal with the defaults written
out), but the prep-time division is by zero whenever `avg_prep_time = 0`,
which a history of all-zero prep times produces; the divisor is nonzero
whenever the history is empty or the history's prep times do not sum to 0,
and at a zero divisor the modelled prep-time contribution is 0 (the numpy
float semantics of the source) rather than an error. -/
theorem core_total_and_defaulting_with_zero_divisor_hazard :
    (∀ meal_history : List Meal,
      meal_history = [] ∨ (meal_history.map (fun m => m.prepTime.getD 30)).sum ≠ 0 →
        (analyze_user_preferences meal_history).avg_prep_time ≠ 0) ∧
    (∀ (meal : Meal) (user_prefs : UserPrefs), user_prefs.avg_prep_time = 0 →
        prep_time_term meal user_prefs = 0) ∧
    (∀ (user_prefs : UserPrefs) (recent_meals : List String),
        calculate_meal_score simpleMeal user_prefs recent_meals =
          calculate_meal_score
            { name := some "", cuisine := some "unknown", ingredients := some [],
              tags := some [], prepTime := some 30, difficulty := some "medium",
              nutrition := some [], rating := some 3 } user_prefs recent_meals) ∧
    (∀ restrictions : List String,
        meets_dietary_restrictions simpleMeal restrictions =
          meets_dietary_restrictions
            { name := some "", cuisine := some "unknown", ingredients := some [],
              tags := some [], prepTime := some 30, difficulty := some "medium",
              nutrition := some [], rating := some 3 } restrictions) := by
  refine ⟨?_, ?_, ?_, ?_⟩
  · rintro history (rfl | hsum)
    · norm_num [analyze_user_preferences, default_preferences]
    · have hne : ¬history.isEmpty := by
        rintro h
        rw [List.isEmpty_iff] at h
        subst h
        simp at hsum
      rw [analyze_user_preferences, if_neg hne]
      have hlen : (history.length : ℚ) ≠ 0 := by
        have : history ≠ [] := by
          intro h
          exact hne (by simp [h])
        exact_mod_cast Nat.cast_ne_zero.mpr (by simpa [List.length_eq_zero] using this)
      exact div_ne_zero hsum hlen
  · intro meal user_prefs h
    rw [prep_time_term]
    simp [h]
  · intro user_prefs recent_meals
    rfl
  · intro restrictions
    rfl

/-- Witness for C8 (amended): the empty history gives a nonzero divisor (30);
a profile with `avg_prep_time = 0` contributes 0; and the defaulting
equalities at concrete arguments. -/
theorem core_total_and_defaulting_with_zero_divisor_hazard_witness :
    (analyze_user_preferences []).avg_prep_time ≠ 0 ∧
    prep_time_term simpleMeal
      { preferred_cuisines := [], preferred_ingredients := [],
        avg_prep_time := 0, preferred_difficulty := 2, variety_score := 0 } = 0 ∧
    calculate_meal_score simpleMeal default_preferences [] =
      calculate_meal_score
        { name := some "", cuisine := some "unknown", ingredients := some [],
          tags := some [], prepTime := some 30, difficulty := some "medium",
          nutrition := some [], rating := some 3 } default_preferences [] ∧
    meets_dietary_restrictions simpleMeal ["vegan"] =
      meets_dietary_restrictions
        { name := some "", cuisine := some "unknown", ingredients := some [],
          tags := some [], prepTime := some 30, difficulty := some "medium",
          nutrition := some [], rating := some 3 } ["vegan"] :=
  ⟨core_total_and_defaulting_with_zero_divisor_hazard.1 [] (Or.inl rfl),
   core_total_and_defaulting_with_zero_divisor_hazard.2.1 simpleMeal _ rfl,
   core_total_and_defaulting_with_zero_divisor_hazard.2.2.1 default_preferences [],
   core_total_and_defaulting_with_zero_divisor_hazard.2.2.2 ["vegan"]⟩

/-! ## C7 -/

/-- Shifting the accumulated weight of the walk into the draw value. -/
lemma wrc_walk_shift {α : Type} (ps : List (α × ℚ)) (u c : ℚ) :
    wrc_walk ps u c = wrc_walk ps (u - c) 0 := by
  induction ps generalizing u c with
  | nil => rfl
  | cons p rest ih =>
    obtain ⟨a, w⟩ := p
    simp only [wrc_walk]
    by_cases h : u ≤ c + w
    · rw [if_pos h, if_pos (by linarith)]
    · rw [if_neg h, if_neg (by intro hh; exact h (by linarith))]
      rw [ih u (c + w), ih (u - c) (0 + w)]
      congr 1
      ring

/-- A positive prefix sum of a list of positive rationals. -/
lemma take_sum_pos (l : List ℚ) (h : ∀ x ∈ l, 0 < x) (n : ℕ) (hn : 0 < n)
    (hl : l ≠ []) : 0 < (l.take n).sum := by
  obtain ⟨a, t, rfl⟩ := List.exists_cons_of_ne_nil hl
  obtain ⟨m, rfl⟩ := Nat.exists_eq_succ_of_ne_zero (Nat.pos_iff_ne_zero.mp hn)
  rw [List.take_succ_cons, List.sum_cons]
  have ha : 0 < a := h a (by simp)
  have ht : 0 ≤ (t.take m).sum :=
    List.sum_nonneg fun x hx => le_of_lt (h x (by simp [List.mem_of_mem_take hx]))
  linarith

/-- A prefix sum is at most the total sum for nonnegative entries. -/
lemma take_sum_le_sum (l : List ℚ) (h : ∀ x ∈ l, 0 ≤ x) (n : ℕ) :
    (l.take n).sum ≤ l.sum := by
  conv_rhs => rw [← List.take_append_drop n l]
  rw [List.sum_append]
  have : 0 ≤ (l.drop n).sum :=
    List.sum_nonneg fun x hx => h x (List.mem_of_mem_drop hx)
  linarith

/-- The walk with positive weights and a draw value inside `[0, total]`
returns the first entry whose cumulative weight meets the draw. -/
lemma wrc_walk_first {α : Type} (ps : List (α × ℚ)) (u : ℚ)
    (hpos : ∀ p ∈ ps, 0 < p.2) (h0 : 0 ≤ u)
    (hle : u ≤ (ps.map Prod.snd).sum) (hne : ps ≠ []) :
    ∃ i, ∃ hi : i < ps.length, wrc_walk ps u 0 = some (ps[i].1) ∧
      u ≤ ((ps.map Prod.snd).take (i+1)).sum ∧
      ∀ j < i, ((ps.map Prod.snd).take (j+1)).sum < u := by
  induction ps generalizing u with
  | nil => exact absurd rfl hne
  | cons p rest ih =>
    obtain ⟨a, w⟩ := p
    by_cases h : u ≤ 0 + w
    · refine ⟨0, by simp, ?_, ?_, ?_⟩
      · rw [show wrc_walk ((a, w) :: rest) u 0 =
            if u ≤ 0 + w then some a else wrc_walk rest u (0 + w) from rfl,
          if_pos h]
        simp
      · simpa using h
      · intro j hj
        omega
    · push_neg at h
      have hw : 0 < w := hpos (a, w) (by simp)
      have hrest : rest ≠ [] := by
        rintro rfl
        simp only [List.map_cons, List.map_nil, List.sum_cons, List.sum_nil,
          add_zero] at hle
        linarith
      have h0' : 0 ≤ u - w := by linarith
      have hle' : u - w ≤ (rest.map Prod.snd).sum := by
        simp only [List.map_cons, List.sum_cons] at hle
        linarith
      obtain ⟨i, hi, heq, hub, hlb⟩ :=
        ih (u - w) (fun p hp => hpos p (List.mem_cons_of_mem _ hp)) h0' hle' hrest
      refine ⟨i + 1, by simpa using Nat.succ_lt_succ hi, ?_, ?_, ?_⟩
      · rw [show wrc_walk ((a, w) :: rest) u 0 =
            if u ≤ 0 + w then some a else wrc_walk rest u (0 + w) from rfl,
          if_neg (by linarith), wrc_walk_shift rest u (0 + w),
          show u - (0 + w) = u - w by ring, heq]
        simp
      · rw [List.map_cons, List.take_succ_cons, List.sum_cons]
        linarith
      · intro j hj
        cases j with
        | zero =>
          simpa using by linarith
        | succ j' =>
          have := hlb j' (by omega)
          rw [List.map_cons, List.take_succ_cons, List.sum_cons]
          linarith


/-- Drawing exactly the `i`-th cumulative weight selects the `i`-th entry. -/
lemma wrc_walk_select {α : Type} (ps : List (α × ℚ)) (hpos : ∀ p ∈ ps, 0 < p.2) :
    ∀ i, ∀ hi : i < ps.length,
      wrc_walk ps ((ps.map Prod.snd).take (i + 1)).sum 0 = some (ps[i].1) := by
  induction ps with
  | nil =>
    intro i hi
    simp at hi
  | cons p rest ih =>
    obtain ⟨a, w⟩ := p
    intro i hi
    cases i with
    | zero =>
      rw [show wrc_walk ((a, w) :: rest) (((((a, w) :: rest).map Prod.snd).take 1).sum) 0 =
          if ((((a, w) :: rest).map Prod.snd).take 1).sum ≤ 0 + w then some a
          else wrc_walk rest ((((a, w) :: rest).map Prod.snd).take 1).sum (0 + w) from rfl,
        if_pos (by simp)]
      simp
    | succ i' =>
      have hi' : i' < rest.length := by simpa using hi
      have hrest : rest ≠ [] := List.ne_nil_of_length_pos (by omega)
      have hpos' : ∀ p ∈ rest, 0 < p.2 := fun p hp => hpos p (List.mem_cons_of_mem _ hp)
      have hs : 0 < ((rest.map Prod.snd).take (i' + 1)).sum := by
        apply take_sum_pos
        · intro x hx
          obtain ⟨q, hq, rfl⟩ := List.mem_map.mp hx
          exact hpos' q hq
        · omega
        · simpa using hrest
      rw [List.map_cons, List.take_succ_cons, List.sum_cons,
        show wrc_walk ((a, w) :: rest) (w + ((rest.map Prod.snd).take (i' + 1)).sum) 0 =
          if w + ((rest.map Prod.snd).take (i' + 1)).sum ≤ 0 + w then some a
          else wrc_walk rest (w + ((rest.map Prod.snd).take (i' + 1)).sum) (0 + w) from rfl,
        if_neg (by linarith), wrc_walk_shift,
        show w + ((rest.map Prod.snd).take (i' + 1)).sum - (0 + w) =
          ((rest.map Prod.snd).take (i' + 1)).sum by ring,
        ih hpos' i' hi']
      simp

/-- Zipping candidates with their selection weights pairs every candidate
with its own weight. -/
lemma zip_selection_weights (candidates : List (Meal × ℚ)) :
    candidates.zip (selection_weights candidates) =
      candidates.map (fun c => (c, c.2 + 1/10)) := by
  rw [selection_weights]
  induction candidates with
  | nil => rfl
  | cons c rest ih => simpa using ih

/-- C7: on a non-empty candidate list with weights `score + 0.1` built from
nonnegative scores, and any draw value `u` in `[0, total weight]`,
`_weighted_random_choice` returns the first candidate whose cumulative weight
is at least `u`; moreover every candidate — including a zero-scoring one —
is returned for some draw value in range, so each has non-zero selection
probability. -/
theorem weighted_random_choice_first_hit_and_full_support
    (candidates : List (Meal × ℚ)) (hne : candidates ≠ [])
    (hscores : ∀ c ∈ candidates, 0 ≤ c.2) :
    (∀ u : ℚ, 0 ≤ u → u ≤ (selection_weights candidates).sum →
      ∃ i, ∃ hi : i < candidates.length,
        weighted_random_choice candidates (selection_weights candidates) u =
          some candidates[i] ∧
        u ≤ ((selection_weights candidates).take (i + 1)).sum ∧
        ∀ j < i, ((selection_weights candidates).take (j + 1)).sum < u) ∧
    (∀ i, ∀ hi : i < candidates.length, ∃ u : ℚ, 0 ≤ u ∧
        u ≤ (selection_weights candidates).sum ∧
        weighted_random_choice candidates (selection_weights candidates) u =
          some candidates[i]) := by
  set ps := candidates.map (fun c => (c, c.2 + 1/10)) with hps
  have hpos : ∀ p ∈ ps, 0 < p.2 := by
    intro p hp
    rw [hps] at hp
    obtain ⟨c, hc, rfl⟩ := List.mem_map.mp hp
    have := hscores c hc
    simp only
    linarith
  have hsnd : ps.map Prod.snd = selection_weights candidates := by
    rw [hps, selection_weights, List.map_map]
    rfl
  have hlen : ps.length = candidates.length := by rw [hps, List.length_map]
  have hpne : ps ≠ [] := by
    rw [hps]
    simpa using hne
  constructor
  · intro u h0 hu
    obtain ⟨i, hi, heq, hub, hlb⟩ :=
      wrc_walk_first ps u hpos h0 (by rwa [hsnd]) hpne
    have hic : i < candidates.length := by omega
    refine ⟨i, hic, ?_, by rwa [hsnd] at hub, by rw [← hsnd]; exact hlb⟩
    rw [weighted_random_choice, zip_selection_weights, ← hps, heq]
    have hgi : ps[i].1 = candidates[i] := by
      simp [hps]
    show some (ps[i].1) = some candidates[i]
    rw [hgi]
  · intro i hic
    have hi : i < ps.length := by omega
    refine ⟨((selection_weights candidates).take (i + 1)).sum, ?_, ?_, ?_⟩
    · apply List.sum_nonneg
      intro x hx
      have hx' := List.mem_of_mem_take hx
      rw [selection_weights] at hx'
      obtain ⟨c, hc, rfl⟩ := List.mem_map.mp hx'
      have := hscores c hc
      linarith
    · apply take_sum_le_sum
      intro x hx
      rw [selection_weights] at hx
      obtain ⟨c, hc, rfl⟩ := List.mem_map.mp hx
      have := hscores c hc
      linarith
    · rw [weighted_random_choice, zip_selection_weights, ← hps, ← hsnd,
        wrc_walk_select ps hpos i hi]
      have hgi : ps[i].1 = candidates[i] := by
        simp [hps]
      show some (ps[i].1) = some candidates[i]
      rw [hgi]

/-- Witness for C7: the one-candidate list with score 0; the draw `u = 0`
hits the first candidate, and every index is selected by some draw. -/
theorem weighted_random_choice_first_hit_and_full_support_witness :
    (∃ i, ∃ hi : i < [(simpleMeal, (0:ℚ))].length,
      weighted_random_choice [(simpleMeal, (0:ℚ))]
          (selection_weights [(simpleMeal, (0:ℚ))]) 0 =
        some ([(simpleMeal, (0:ℚ))])[i] ∧
      (0:ℚ) ≤ ((selection_weights [(simpleMeal, (0:ℚ))]).take (i + 1)).sum ∧
      ∀ j < i, ((selection_weights [(simpleMeal, (0:ℚ))]).take (j + 1)).sum < 0) ∧
    (∃ u : ℚ, 0 ≤ u ∧ u ≤ (selection_weights [(simpleMeal, (0:ℚ))]).sum ∧
      weighted_random_choice [(simpleMeal, (0:ℚ))]
          (selection_weights [(simpleMeal, (0:ℚ))]) u =
        some ([(simpleMeal, (0:ℚ))])[0]) :=
  ⟨(weighted_random_choice_first_hit_and_full_support [(simpleMeal, 0)]
      (by simp) (by norm_num)).1 0 le_rfl
      (by norm_num [selection_weights]),
   (weighted_random_choice_first_hit_and_full_support [(simpleMeal, 0)]
      (by simp) (by norm_num)).2 0 (by norm_num)⟩

/-! ## C6 -/

/-- Looking up an absent key in a filtered-and-rekeyed association list. -/
lemma lookup_filter_map_of_not_mem (l : List (String × ℚ)) (pred : String × ℚ → Bool)
    (f : String × ℚ → ℚ) (n : String) (hn : n ∉ l.map Prod.fst) :
    ((l.filter pred).map (fun p => (p.1, f p))).lookup n = none := by
  induction l with
  | nil => rfl
  | cons p rest ih =>
    simp only [List.map_cons, List.mem_cons, not_or] at hn
    rw [List.filter_cons]
    by_cases hp : pred p
    · rw [if_pos hp, List.map_cons, List.lookup_cons]
      have : (n == p.1) = false := beq_eq_false_iff_ne.mpr hn.1
      rw [this]
      exact ih hn.2
    · rw [if_neg hp]
      exact ih hn.2

/-- Looking up a key of a nodup association list after filtering and
re-keying: the entry survives exactly when the filter accepts it. -/
lemma lookup_filter_map (l : List (String × ℚ)) (pred : String × ℚ → Bool)
    (f : String × ℚ → ℚ) (n : String) (t : ℚ)
    (hmem : (n, t) ∈ l) (hnd : (l.map Prod.fst).Nodup) :
    ((l.filter pred).map (fun p => (p.1, f p))).lookup n =
      if pred (n, t) = true then some (f (n, t)) else none := by
  induction l with
  | nil => simp at hmem
  | cons p rest ih =>
    rw [List.map_cons] at hnd
    obtain ⟨hnotin, hnd2⟩ := List.nodup_cons.mp hnd
    rcases List.mem_cons.mp hmem with heq | hmem2
    · subst heq
      rw [List.filter_cons]
      by_cases hp : pred (n, t)
      · rw [if_pos hp, if_pos hp, List.map_cons, List.lookup_cons]
        simp
      · rw [if_neg hp, if_neg hp]
        exact lookup_filter_map_of_not_mem rest pred f n hnotin
    · have hne : (n == p.1) = false := by
        apply beq_eq_false_iff_ne.mpr
        intro h
        apply hnotin
        apply List.mem_map.mpr
        exact ⟨(n, t), hmem2, h⟩
      rw [List.filter_cons]
      by_cases hp : pred p
      · rw [if_pos hp, List.map_cons, List.lookup_cons, hne]
        exact ih hmem2 hnd2
      · rw [if_neg hp]
        exact ih hmem2 hnd2

/-- The gap entry of a target nutrient exists iff its total is below 80% of
the recommendation, and then equals `recommended - current`. -/
lemma gaps_lookup (meal_plan : List Meal) (n : String) (t : ℚ)
    (hmem : (n, t) ∈ weekly_recommendations) :
    (analyze_nutrition_gaps meal_plan).gaps.lookup n =
      if nutrition_totals meal_plan n < t * (4/5)
      then some (t - nutrition_totals meal_plan n) else none := by
  have h := lookup_filter_map weekly_recommendations
    (fun p => decide (nutrition_totals meal_plan p.1 < p.2 * (4/5)))
    (fun p => p.2 - nutrition_totals meal_plan p.1) n t hmem (by decide)
  simp only [decide_eq_true_eq] at h
  exact h

/-- The excess entry of a target nutrient exists iff its total is above 120%
of the recommendation, and then equals `current - recommended`. -/
lemma excesses_lookup (meal_plan : List Meal) (n : String) (t : ℚ)
    (hmem : (n, t) ∈ weekly_recommendations) :
    (analyze_nutrition_gaps meal_plan).excesses.lookup n =
      if nutrition_totals meal_plan n > t * (6/5)
      then some (nutrition_totals meal_plan n - t) else none := by
  have h := lookup_filter_map weekly_recommendations
    (fun p => decide (nutrition_totals meal_plan p.1 > p.2 * (6/5)))
    (fun p => nutrition_totals meal_plan p.1 - p.2) n t hmem (by decide)
  simp only [decide_eq_true_eq] at h
  exact h

/-- C6: for every meal plan and each of the six target nutrients,
`analyze_nutrition_gaps` records a gap of exactly `target - current` iff the
plan's total is below 80% of the target and an excess of exactly
`current - target` iff it is above 120% (neither otherwise); and a plan whose
meals all lack `protein` yields a protein gap of exactly 350 and a protein
balance contribution of 0. -/
theorem analyze_nutrition_gaps_thresholds :
    (∀ (meal_plan : List Meal) (n : String) (t : ℚ),
      (n, t) ∈ weekly_recommendations →
      ((analyze_nutrition_gaps meal_plan).gaps.lookup n =
        if nutrition_totals meal_plan n < t * (4/5)
        then some (t - nutrition_totals meal_plan n) else none) ∧
      ((analyze_nutrition_gaps meal_plan).excesses.lookup n =
        if nutrition_totals meal_plan n > t * (6/5)
        then some (nutrition_totals meal_plan n - t) else none)) ∧
    (∀ meal_plan : List Meal,
      (∀ m ∈ meal_plan, (m.nutrition.getD []).lookup "protein" = none) →
      (analyze_nutrition_gaps meal_plan).gaps.lookup "protein" = some 350 ∧
      balance_contribution meal_plan ("protein", 350) = 0) := by
  constructor
  · intro meal_plan n t hmem
    exact ⟨gaps_lookup meal_plan n t hmem, excesses_lookup meal_plan n t hmem⟩
  · intro meal_plan hnone
    have hz : nutrition_totals meal_plan "protein" = 0 := by
      rw [nutrition_totals]
      apply List.sum_eq_zero
      intro x hx
      obtain ⟨m, hm, rfl⟩ := List.mem_map.mp hx
      rw [nutrGet, dictGet, hnone m hm]
    constructor
    · rw [gaps_lookup meal_plan "protein" 350 (by simp [weekly_recommendations]), hz]
      norm_num
    · rw [balance_contribution]
      simp only [hz]
      norm_num

/-- Witness for C6: the empty plan for the threshold characterisation of
`protein`, and a 7-meal plan of all-missing meals for the protein scenario. -/
theorem analyze_nutrition_gaps_thresholds_witness :
    ((analyze_nutrition_gaps []).gaps.lookup "protein" =
      if nutrition_totals [] "protein" < 350 * (4/5)
      then some (350 - nutrition_totals [] "protein") else none) ∧
    ((analyze_nutrition_gaps []).excesses.lookup "protein" =
      if nutrition_totals [] "protein" > 350 * (6/5)
      then some (nutrition_totals [] "protein" - 350) else none) ∧
    (analyze_nutrition_gaps (List.replicate 7 simpleMeal)).gaps.lookup "protein" =
      some 350 ∧
    balance_contribution (List.replicate 7 simpleMeal) ("protein", 350) = 0 := by
  have h1 := analyze_nutrition_gaps_thresholds.1 [] "protein" 350
    (by simp [weekly_recommendations])
  have h2 := analyze_nutrition_gaps_thresholds.2 (List.replicate 7 simpleMeal)
    (by
      intro m hm
      rw [List.eq_of_mem_replicate hm]
      rfl)
  exact ⟨h1.1, h1.2, h2.1, h2.2⟩

/-! ## Plan-generator lemmas shared by C1 and C9 -/

/-- `_weighted_random_choice` on a non-empty item list always returns an
item (the final `items[-1]` fallback guarantees it). -/
lemma weighted_random_choice_isSome {α : Type} (items : List α) (ws : List ℚ)
    (rv : ℚ) (h : items ≠ []) : ∃ a, weighted_random_choice items ws rv = some a := by
  rw [weighted_random_choice]
  cases hw : wrc_walk (items.zip ws) rv 0 with
  | some a => exact ⟨a, rfl⟩
  | none =>
    have := List.getLast?_isSome.mpr h
    obtain ⟨a, ha⟩ := Option.isSome_iff_exists.mp this
    exact ⟨a, ha⟩

/-- A successful walk returns an item of the pair list. -/
lemma wrc_walk_mem {α : Type} :
    ∀ (ps : List (α × ℚ)) (u c : ℚ) (a : α), wrc_walk ps u c = some a →
      ∃ w, (a, w) ∈ ps := by
  intro ps
  induction ps with
  | nil =>
    intro u c a h
    exact absurd h (by simp [wrc_walk])
  | cons p rest ih =>
    intro u c a h
    obtain ⟨b, w⟩ := p
    rw [show wrc_walk ((b, w) :: rest) u c =
        if u ≤ c + w then some b else wrc_walk rest u (c + w) from rfl] at h
    by_cases hc : u ≤ c + w
    · rw [if_pos hc, Option.some_inj] at h
      exact ⟨w, by simp [h]⟩
    · rw [if_neg hc] at h
      obtain ⟨w2, hw2⟩ := ih u (c + w) a h
      exact ⟨w2, List.mem_cons_of_mem _ hw2⟩

/-- `_weighted_random_choice` only returns elements of its item list. -/
lemma weighted_random_choice_mem {α : Type} (items : List α) (ws : List ℚ)
    (rv : ℚ) (a : α) (h : weighted_random_choice items ws rv = some a) :
    a ∈ items := by
  rw [weighted_random_choice] at h
  cases hw : wrc_walk (items.zip ws) rv 0 with
  | some b =>
    rw [hw, Option.some_inj] at h
    subst h
    obtain ⟨w, hwmem⟩ := wrc_walk_mem (items.zip ws) rv 0 b hw
    exact (List.of_mem_zip hwmem).1
  | none =>
    rw [hw] at h
    obtain ⟨ys, hys⟩ := List.getLast?_eq_some_iff.mp h
    rw [hys]
    simp

/-- `balance_nutrition_weekly` preserves the length of its input. -/
lemma balance_nutrition_weekly_length (meals : List Meal) :
    (balance_nutrition_weekly meals).length = meals.length := by
  rw [balance_nutrition_weekly]
  by_cases h : meals.length < 7
  · rw [if_pos h]
  · rw [if_neg h]
    exact List.length_mergeSort meals

/-- `balance_nutrition_weekly` preserves the members of its input. -/
lemma balance_nutrition_weekly_mem (meals : List Meal) (m : Meal) :
    m ∈ balance_nutrition_weekly meals ↔ m ∈ meals := by
  rw [balance_nutrition_weekly]
  by_cases h : meals.length < 7
  · rw [if_pos h]
  · rw [if_neg h]
    exact List.mem_mergeSort

/-- Each day of the selection loop appends exactly one meal when the scored
list is non-empty. -/
lemma plan_day_step_length (M : List (Meal × ℚ)) (hM : M ≠ []) (rand : ℕ → ℚ)
    (st : List Meal × List String) (day : ℕ) :
    ((plan_day_step M rand st day).1).length = st.1.length + 1 := by
  simp only [plan_day_step]
  set avail := M.filter (fun ms => !st.2.contains (ms.1.name.getD "")) with hav
  set pool := if avail.isEmpty then M else avail with hpool
  have hpne : pool ≠ [] := by
    rw [hpool]
    by_cases h : avail.isEmpty
    · rwa [if_pos h]
    · rw [if_neg h]
      exact fun hh => h (by simp [hh])
  rw [if_neg (by simpa using hpne)]
  obtain ⟨a, ha⟩ := weighted_random_choice_isSome pool (selection_weights pool)
    (rand day) hpne
  rw [ha]
  simp

/-- Each day of the selection loop appends a meal of the scored list. -/
lemma plan_day_step_mem (M : List (Meal × ℚ)) (rand : ℕ → ℚ)
    (st : List Meal × List String) (day : ℕ) (m : Meal)
    (hm : m ∈ (plan_day_step M rand st day).1) :
    m ∈ st.1 ∨ ∃ s, (m, s) ∈ M := by
  simp only [plan_day_step] at hm
  set avail := M.filter (fun ms => !st.2.contains (ms.1.name.getD "")) with hav
  set pool := if avail.isEmpty then M else avail with hpool
  have hsub : ∀ x, x ∈ pool → x ∈ M := by
    intro x hx
    rw [hpool] at hx
    by_cases h : avail.isEmpty
    · rwa [if_pos h] at hx
    · rw [if_neg h, hav] at hx
      exact List.mem_of_mem_filter hx
  by_cases hpe : pool.isEmpty
  · rw [if_pos hpe] at hm
    exact Or.inl hm
  · rw [if_neg hpe] at hm
    cases hw : weighted_random_choice pool (selection_weights pool) (rand day) with
    | none =>
      rw [hw] at hm
      exact Or.inl hm
    | some sel =>
      rw [hw] at hm
      rcases List.mem_append.mp hm with h1 | h2
      · exact Or.inl h1
      · rw [List.mem_singleton] at h2
        subst h2
        have hselM : sel ∈ M := hsub sel (weighted_random_choice_mem _ _ _ _ hw)
        exact Or.inr ⟨sel.2, hselM⟩

/-- The selection loop grows the plan by one meal per day. -/
lemma foldl_plan_day_step_length (M : List (Meal × ℚ)) (hM : M ≠ []) (rand : ℕ → ℚ) :
    ∀ (l : List ℕ) (st : List Meal × List String),
      ((l.foldl (plan_day_step M rand) st).1).length = st.1.length + l.length := by
  intro l
  induction l with
  | nil => simp
  | cons d rest ih =>
    intro st
    rw [List.foldl_cons, ih, plan_day_step_length M hM rand st d, List.length_cons]
    omega

/-- Every meal accumulated by the selection loop is in the initial state or
comes from the scored list. -/
lemma foldl_plan_day_step_mem (M : List (Meal × ℚ)) (rand : ℕ → ℚ) :
    ∀ (l : List ℕ) (st : List Meal × List String) (m : Meal),
      m ∈ ((l.foldl (plan_day_step M rand) st).1) → m ∈ st.1 ∨ ∃ s, (m, s) ∈ M := by
  intro l
  induction l with
  | nil =>
    intro st m hm
    exact Or.inl hm
  | cons d rest ih =>
    intro st m hm
    rw [List.foldl_cons] at hm
    rcases ih (plan_day_step M rand st d) m hm with h1 | h2
    · exact plan_day_step_mem M rand st d m h1
    · exact Or.inr h2

/-- Unfolding `generate_smart_meal_plan` when the filtered catalog is
non-empty. -/
lemma generate_smart_meal_plan_eq (available_meals meal_history : List Meal)
    (days : ℕ) (dietary_restrictions : List String) (rand : ℕ → ℚ)
    (hne : ¬(available_meals.filter
      (fun meal => meets_dietary_restrictions meal dietary_restrictions)).isEmpty = true) :
    generate_smart_meal_plan available_meals meal_history days dietary_restrictions rand =
      balance_nutrition_weekly
        (((List.range days).foldl
          (plan_day_step
            (((available_meals.filter
                (fun meal => meets_dietary_restrictions meal dietary_restrictions)).map
              (fun meal => (meal, calculate_meal_score meal
                (analyze_user_preferences meal_history)
                ((meal_history.drop (meal_history.length - 14)).map
                  (fun meal => meal.name.getD ""))))).mergeSort
              (fun a b => decide (b.2 ≤ a.2)))
            rand) ([], [])).1) := by
  simp only [generate_smart_meal_plan]
  rw [if_neg hne]

/-- Unfolding `generate_smart_meal_plan` when the filtered catalog is empty. -/
lemma generate_smart_meal_plan_eq_nil (available_meals meal_history : List Meal)
    (days : ℕ) (dietary_restrictions : List String) (rand : ℕ → ℚ)
    (he : (available_meals.filter
      (fun meal => meets_dietary_restrictions meal dietary_restrictions)).isEmpty = true) :
    generate_smart_meal_plan available_meals meal_history days dietary_restrictions rand = [] := by
  simp only [generate_smart_meal_plan]
  rw [if_pos he]

/-! ## C1 -/

/-- C1, counterexample: with `days = 0` and a catalog whose dietary-filtered
list is non-empty, the plan is empty while the filtered catalog is not — so
"returns the empty sequence if and only if the filtered catalog is empty"
fails as a universally quantified statement over day counts. -/
theorem generate_plan_empty_iff_cex :
    generate_smart_meal_plan [simpleMeal] [] 0 [] (fun _ => 0) = [] ∧
      [simpleMeal].filter (fun meal => meets_dietary_restrictions meal []) ≠ [] := by
  constructor
  · rfl
  · decide

/-- C1 (amended): whenever the dietary-filtered catalog is non-empty,
`generate_smart_meal_plan` returns exactly `days` meals (repeats permitted);
when the filtered catalog is empty the plan is empty; and for every positive
day count the plan is empty iff the filtered catalog is empty. -/
theorem generate_plan_length_and_empty_iff
    (available_meals meal_history : List Meal) (days : ℕ)
    (dietary_restrictions : List String) (rand : ℕ → ℚ) :
    ((available_meals.filter
        (fun meal => meets_dietary_restrictions meal dietary_restrictions)) ≠ [] →
      (generate_smart_meal_plan available_meals meal_history days
        dietary_restrictions rand).length = days) ∧
    ((available_meals.filter
        (fun meal => meets_dietary_restrictions meal dietary_restrictions)) = [] →
      generate_smart_meal_plan available_meals meal_history days
        dietary_restrictions rand = []) ∧
    (1 ≤ days →
      (generate_smart_meal_plan available_meals meal_history days
          dietary_restrictions rand = [] ↔
        (available_meals.filter
          (fun meal => meets_dietary_restrictions meal dietary_restrictions)) = [])) := by
  have hlen : (available_meals.filter
      (fun meal => meets_dietary_restrictions meal dietary_restrictions)) ≠ [] →
      (generate_smart_meal_plan available_meals meal_history days
        dietary_restrictions rand).length = days := by
    intro hne
    rw [generate_smart_meal_plan_eq available_meals meal_history days
      dietary_restrictions rand (by simpa using hne)]
    have hM : ∀ M : List (Meal × ℚ), M.length =
        (available_meals.filter
          (fun meal => meets_dietary_restrictions meal dietary_restrictions)).length →
        M ≠ [] := by
      intro M hlen h
      apply hne
      rw [h, List.length_nil] at hlen
      exact List.length_eq_zero.mp hlen.symm
    rw [balance_nutrition_weekly_length,
      foldl_plan_day_step_length _
        (hM _ (by rw [List.length_mergeSort, List.length_map])) rand
        (List.range days) ([], [])]
    simp
  refine ⟨hlen, ?_, ?_⟩
  · intro he
    exact generate_smart_meal_plan_eq_nil available_meals meal_history days
      dietary_restrictions rand (by simp [he])
  · intro hdays
    constructor
    · intro hplan
      by_contra hne
      have := hlen hne
      rw [hplan] at this
      simp at this
      omega
    · intro he
      exact generate_smart_meal_plan_eq_nil available_meals meal_history days
        dietary_restrictions rand (by simp [he])

/-- Witness for C1 (amended): one unrestricted meal planned for 7 days gives
a 7-meal plan; an empty catalog gives an empty plan; and at 7 days the plan
is empty iff the filtered catalog is. -/
theorem generate_plan_length_and_empty_iff_witness :
    (generate_smart_meal_plan [simpleMeal] [] 7 [] (fun _ => 0)).length = 7 ∧
    generate_smart_meal_plan [] [] 7 [] (fun _ => 0) = [] ∧
    (generate_smart_meal_plan [simpleMeal] [] 7 [] (fun _ => 0) = [] ↔
      [simpleMeal].filter (fun meal => meets_dietary_restrictions meal []) = []) :=
  ⟨(generate_plan_length_and_empty_iff [simpleMeal] [] 7 [] (fun _ => 0)).1 (by decide),
   (generate_plan_length_and_empty_iff [] [] 7 [] (fun _ => 0)).2.1 rfl,
   (generate_plan_length_and_empty_iff [simpleMeal] [] 7 [] (fun _ => 0)).2.2 (by decide)⟩

/-! ## C9 -/

/-- C9: every meal of a generated plan comes from the supplied catalog and
satisfies the supplied dietary restrictions — the plan never contains a
filtered-out or invented meal. -/
theorem generate_plan_members_admissible
    (available_meals meal_history : List Meal) (days : ℕ)
    (dietary_restrictions : List String) (rand : ℕ → ℚ) :
    ∀ m ∈ generate_smart_meal_plan available_meals meal_history days
        dietary_restrictions rand,
      m ∈ available_meals ∧ meets_dietary_restrictions m dietary_restrictions = true := by
  intro m hm
  by_cases he : (available_meals.filter
      (fun meal => meets_dietary_restrictions meal dietary_restrictions)).isEmpty
  · rw [generate_smart_meal_plan_eq_nil available_meals meal_history days
      dietary_restrictions rand he] at hm
    simp at hm
  · rw [generate_smart_meal_plan_eq available_meals meal_history days
      dietary_restrictions rand he] at hm
    rw [balance_nutrition_weekly_mem] at hm
    rcases foldl_plan_day_step_mem _ rand (List.range days) ([], []) m hm with h1 | ⟨s, hs⟩
    · simp at h1
    · rw [List.mem_mergeSort] at hs
      obtain ⟨meal, hmeal, heq⟩ := List.mem_map.mp hs
      have hfst : meal = m := congrArg Prod.fst heq
      subst hfst
      have hf := List.mem_filter.mp hmeal
      exact ⟨hf.1, hf.2⟩

/-- The meal score is never negative (the final clamp). -/
lemma calculate_meal_score_nonneg (meal : Meal) (user_prefs : UserPrefs)
    (recent_meals : List String) :
    0 ≤ calculate_meal_score meal user_prefs recent_meals := by
  unfold calculate_meal_score
  exact le_min (by norm_num) (le_max_left 0 _)

/-- `mergeSort` of a singleton. -/
lemma mergeSort_singleton {α : Type} (le : α → α → Bool) (a : α) :
    [a].mergeSort le = [a] :=
  List.mergeSort_of_sorted (List.pairwise_singleton _ _)

/-- The one-candidate weighted choice with an in-range draw. -/
lemma weighted_random_choice_singleton {α : Type} (a : α) (w : ℚ) (rv : ℚ)
    (h : rv ≤ 0 + w) : weighted_random_choice [a] [w] rv = some a := by
  rw [weighted_random_choice,
    show ([a].zip [w]) = [(a, w)] from rfl,
    show wrc_walk [(a, w)] rv 0 =
      if rv ≤ 0 + w then some a else wrc_walk [] rv (0 + w) from rfl,
    if_pos h]

/-- Evaluating a 1-day plan over the one-meal unrestricted catalog. -/
lemma generate_singleton_eval :
    generate_smart_meal_plan [simpleMeal] [] 1 [] (fun _ => 0) = [simpleMeal] := by
  rw [generate_smart_meal_plan_eq [simpleMeal] [] 1 [] (fun _ => 0) (by decide)]
  rw [show List.range 1 = [0] from rfl, List.foldl_cons, List.foldl_nil]
  simp only [List.length_nil, List.drop_nil, List.map_nil, List.filter_cons,
    List.filter_nil, show meets_dietary_restrictions simpleMeal [] = true from rfl,
    if_true, List.map_cons, mergeSort_singleton]
  set s := calculate_meal_score simpleMeal (analyze_user_preferences []) [] with hsdef
  have hs0 : 0 ≤ s := hsdef ▸ calculate_meal_score_nonneg _ _ _
  simp only [plan_day_step, List.filter_cons, List.filter_nil,
    show ∀ t : String, (([] : List String).contains t) = false from fun t => rfl,
    Bool.not_false, if_true, List.isEmpty_cons, Bool.false_eq_true, if_false,
    selection_weights, List.map_cons, List.map_nil]
  rw [weighted_random_choice_singleton (simpleMeal, s) (s + 1/10) 0 (by linarith)]
  simp [balance_nutrition_weekly]

/-- Witness for C9: the meal selected into the 1-day plan over the one-meal
catalog is that catalog meal and passes the (empty) restriction list. -/
theorem generate_plan_members_admissible_witness :
    simpleMeal ∈ [simpleMeal] ∧ meets_dietary_restrictions simpleMeal [] = true :=
  generate_plan_members_admissible [simpleMeal] [] 1 [] (fun _ => 0) simpleMeal
    (by rw [generate_singleton_eval]; exact List.mem_singleton_self _)
